import Mathlib

/-!
Verification of the OrchidChallenge website-cloner backend.

The repository drives a headless browser over a target page, harvests image
candidates and page-level style facts, deduplicates and ranks them, and hands a
reduced context to an external model.  This file gives a shallow embedding of
the deterministic data-shaping parts of `backend/main.py`,
`backend/app/scraper.py` and `backend/app/llm_cloner.py`, and proves the
specification claims about them.

Strings are modelled with Lean `String` / `List Char`; JavaScript and Python
string primitives (`startsWith`, `match`, slicing, `find`, `rfind`, `replace`,
`strip`, `str()`, truthiness) are embedded by functions that reproduce their
semantics on the inputs the program manipulates.
-/

namespace OrchidSpec

open List

/-- Boolean starts-with test, the embedding of JS `String.prototype.startsWith`
and Python `str.startswith`, phrased on the character list of the string. -/
def strStartsWith (s pre : String) : Bool :=
  pre.toList.isPrefixOf s.toList

/-- JS helper `resolveUrl` from the in-page extraction script of
`scrape_with_super_playwright` (`backend/main.py`): resolves a candidate source
string against the page origin.  A falsy (empty) input yields `null`, modelled
as `none`. -/
def resolveUrl (origin url : String) : Option String :=
  if url = "" then none
  else if strStartsWith url "data:" then some url
  else if strStartsWith url "//" then some ("https:" ++ url)
  else if strStartsWith url "/" then some (origin ++ url)
  else if !(strStartsWith url "http") then some (origin ++ "/" ++ url)
  else some url

/-- Inline-data flag attached at the push site of the extraction script:
`is_base64: resolvedUrl.startsWith('data:')`. -/
def isBase64Flag (resolvedUrl : String) : Bool :=
  strStartsWith resolvedUrl "data:"

theorem strStartsWith_iff {s pre : String} :
    strStartsWith s pre = true ↔ pre.toList <+: s.toList := by
  simp [strStartsWith]

theorem toList_eq_nil_iff {s : String} : s.toList = [] ↔ s = "" := by
  constructor
  · intro h
    apply String.ext
    exact h
  · intro h
    subst h
    rfl

theorem startsWith_conflict {s : String} {p q : String}
    (hp : strStartsWith s p = true) (hq : strStartsWith s q = true)
    (hlen : p.toList.length ≤ q.toList.length) : p.toList <+: q.toList :=
  List.prefix_of_prefix_length_le (strStartsWith_iff.mp hp)
    (strStartsWith_iff.mp hq) hlen

theorem startsWith_ne_empty {s p : String}
    (hp : strStartsWith s p = true) (hne : p ≠ "") : s ≠ "" := by
  intro h
  subst h
  have := strStartsWith_iff.mp hp
  have hnil : p.toList = [] := List.prefix_nil.mp this
  exact hne (toList_eq_nil_iff.mp hnil)

/-- C1: the URL resolver returns already-absolute inputs (starting with
`http`/`https`) unchanged; data URIs unchanged and flagged inline; prepends
`https:` to protocol-relative inputs; prepends the page origin to
root-relative inputs; and prepends `origin ++ "/"` to every other non-empty
input. -/
theorem resolveUrl_cases (origin url : String) :
    (strStartsWith url "http" = true → resolveUrl origin url = some url) ∧
    (strStartsWith url "data:" = true →
      resolveUrl origin url = some url ∧ isBase64Flag url = true) ∧
    (strStartsWith url "//" = true →
      resolveUrl origin url = some ("https:" ++ url)) ∧
    (strStartsWith url "/" = true → strStartsWith url "//" = false →
      resolveUrl origin url = some (origin ++ url)) ∧
    (url ≠ "" → strStartsWith url "http" = false →
      strStartsWith url "data:" = false → strStartsWith url "//" = false →
      strStartsWith url "/" = false →
      resolveUrl origin url = some (origin ++ "/" ++ url)) := by
  refine ⟨?_, ?_, ?_, ?_, ?_⟩
  · intro h
    have hne : url ≠ "" := startsWith_ne_empty h (by decide)
    have hd : ¬ strStartsWith url "data:" = true := by
      intro hd
      have := startsWith_conflict h hd (by decide)
      revert this
      decide
    have hss : ¬ strStartsWith url "//" = true := by
      intro hss
      have := startsWith_conflict hss h (by decide)
      revert this
      decide
    have hs : ¬ strStartsWith url "/" = true := by
      intro hs
      have := startsWith_conflict hs h (by decide)
      revert this
      decide
    simp [resolveUrl, hne, hd, hss, hs, h]
  · intro h
    have hne : url ≠ "" := startsWith_ne_empty h (by decide)
    constructor
    · simp [resolveUrl, hne, h]
    · simpa [isBase64Flag] using h
  · intro h
    have hne : url ≠ "" := startsWith_ne_empty h (by decide)
    have hd : ¬ strStartsWith url "data:" = true := by
      intro hd
      have := startsWith_conflict h hd (by decide)
      revert this
      decide
    simp [resolveUrl, hne, hd, h]
  · intro h hss
    have hne : url ≠ "" := startsWith_ne_empty h (by decide)
    have hd : ¬ strStartsWith url "data:" = true := by
      intro hd
      have := startsWith_conflict h hd (by decide)
      revert this
      decide
    simp [resolveUrl, hne, hd, hss, h]
  · intro hne h hd hss hs
    simp [resolveUrl, hne, hd, hss, hs, h]

/-- Witness for C1 at the spec test vector: a protocol-relative input on origin
`https://site.test` resolves to an `https:` URL. -/
theorem resolveUrl_cases_witness :
    resolveUrl "https://site.test" "//cdn.example.com/a.png" =
      some "https://cdn.example.com/a.png" :=
  (resolveUrl_cases "https://site.test" "//cdn.example.com/a.png").2.2.1
    (by decide)

/-- One discovered visual asset, as pushed onto `allImages` by the in-page
extraction script of `scrape_with_super_playwright`. -/
structure ImageCandidate where
  src : String
  alt : String
  width : Nat
  height : Nat
  format : String
  context : String
  is_base64 : Bool
deriving DecidableEq, Repr

/-- Rendered area, the ranking key `width * height` of the extraction script. -/
def area (c : ImageCandidate) : Nat := c.width * c.height

/-- Embedding of the `seenUrls` set discipline of the extraction script: a
candidate is pushed only when its resolved URL has not been seen, so the first
occurrence of each URL wins. -/
def dedupAux (seen : List String) : List ImageCandidate → List ImageCandidate
  | [] => []
  | c :: cs =>
      if c.src ∈ seen then dedupAux seen cs
      else c :: dedupAux (c.src :: seen) cs

/-- Deduplication of the raw discovery sequence by resolved URL. -/
def dedupImages (l : List ImageCandidate) : List ImageCandidate := dedupAux [] l

/-- Stable insertion into a descending-by-area list: the new element goes after
every element of strictly larger area and before the first element of equal or
smaller area, which preserves discovery order among equal areas. -/
def insertByArea (c : ImageCandidate) :
    List ImageCandidate → List ImageCandidate
  | [] => [c]
  | x :: xs => if area c < area x then x :: insertByArea c xs
               else c :: x :: xs

/-- Embedding of `allImages.sort((a, b) => (b.width * b.height) -
(a.width * a.height))`: ECMAScript `Array.prototype.sort` is required to be
stable, so the sort is modelled as a stable descending insertion sort. -/
def sortByArea : List ImageCandidate → List ImageCandidate
  | [] => []
  | x :: xs => insertByArea x (sortByArea xs)

/-- The dedup/rank step of the extraction script: dedup during discovery, sort
descending by area, cap at 100 via `slice(0, 100)`, and report
`totalImagesFound` as the length of the full (pre-cap) sorted array. -/
def rankImages (l : List ImageCandidate) : List ImageCandidate × Nat :=
  let sorted := sortByArea (dedupImages l)
  (sorted.take 100, sorted.length)

theorem dedupAux_filter (u : String) (l : List ImageCandidate) :
    ∀ seen : List String,
      (dedupAux seen l).filter (fun c => c.src == u) =
        if u ∈ seen then [] else (l.filter (fun c => c.src == u)).take 1 := by
  induction l with
  | nil => intro seen; by_cases h : u ∈ seen <;> simp [dedupAux, h]
  | cons c cs ih =>
    intro seen
    by_cases hc : c.src ∈ seen
    · by_cases hcu : c.src = u
      · subst hcu
        simp [dedupAux, hc, ih seen, List.filter_cons]
      · have : ¬ (c.src == u) = true := by simpa using hcu
        simp only [dedupAux, if_pos hc, ih seen, List.filter_cons, this]
        simp
    · by_cases hcu : c.src = u
      · subst hcu
        have hmem : c.src ∈ c.src :: seen := List.mem_cons_self c.src seen
        simp [dedupAux, hc, List.filter_cons, ih (c.src :: seen), hmem]
      · have hne : ¬ (c.src == u) = true := by simpa using hcu
        have hiff : u ∈ c.src :: seen ↔ u ∈ seen := by
          constructor
          · intro h
            rcases List.mem_cons.mp h with h | h
            · exact absurd h.symm hcu
            · exact h
          · exact fun h => List.mem_cons_of_mem _ h
        simp only [dedupAux, if_neg hc, List.filter_cons, hne, ih (c.src :: seen),
          hiff]
        simp

theorem dedupAux_sublist (seen : List String) (l : List ImageCandidate) :
    dedupAux seen l <+ l := by
  induction l generalizing seen with
  | nil => simp [dedupAux]
  | cons c cs ih =>
    by_cases hc : c.src ∈ seen
    · simp only [dedupAux, if_pos hc]
      exact (ih seen).cons c
    · simp only [dedupAux, if_neg hc]
      exact (ih (c.src :: seen)).cons₂ c

theorem insertByArea_perm (c : ImageCandidate) (l : List ImageCandidate) :
    insertByArea c l ~ c :: l := by
  induction l with
  | nil => exact List.Perm.refl _
  | cons x xs ih =>
    by_cases h : area c < area x
    · simp only [insertByArea, if_pos h]
      exact (ih.cons x).trans (List.Perm.swap c x xs)
    · simp only [insertByArea, if_neg h]
      exact List.Perm.refl _

theorem insertByArea_pairwise {c : ImageCandidate} {l : List ImageCandidate}
    (h : l.Pairwise (fun a b => area b ≤ area a)) :
    (insertByArea c l).Pairwise (fun a b => area b ≤ area a) := by
  induction l with
  | nil => simp [insertByArea]
  | cons x xs ih =>
    rcases List.pairwise_cons.mp h with ⟨hx, hxs⟩
    by_cases hca : area c < area x
    · simp only [insertByArea, if_pos hca]
      refine List.pairwise_cons.mpr ⟨?_, ih hxs⟩
      intro y hy
      rcases List.mem_cons.mp ((insertByArea_perm c xs).mem_iff.mp hy) with
        rfl | hmem
      · exact Nat.le_of_lt hca
      · exact hx y hmem
    · simp only [insertByArea, if_neg hca]
      have hxc : area x ≤ area c := Nat.le_of_not_lt hca
      refine List.pairwise_cons.mpr ⟨?_, h⟩
      intro y hy
      rcases List.mem_cons.mp hy with rfl | hmem
      · exact hxc
      · exact Nat.le_trans (hx y hmem) hxc

theorem sortByArea_pairwise (l : List ImageCandidate) :
    (sortByArea l).Pairwise (fun a b => area b ≤ area a) := by
  induction l with
  | nil => simp [sortByArea]
  | cons x xs ih => exact insertByArea_pairwise ih

theorem sortByArea_perm (l : List ImageCandidate) : sortByArea l ~ l := by
  induction l with
  | nil => exact List.Perm.refl _
  | cons x xs ih => exact (insertByArea_perm x (sortByArea xs)).trans (ih.cons x)

theorem insertByArea_filter (n : Nat) (c : ImageCandidate)
    (l : List ImageCandidate) :
    (insertByArea c l).filter (fun x => area x == n) =
      if area c = n then c :: l.filter (fun x => area x == n)
      else l.filter (fun x => area x == n) := by
  induction l with
  | nil => by_cases h : area c = n <;> simp [insertByArea, h]
  | cons x xs ih =>
    by_cases hca : area c < area x
    · simp only [insertByArea, if_pos hca, List.filter_cons]
      by_cases hx : area x = n
      · have hcn : ¬ area c = n := by omega
        simp [hx, hcn, ih, List.filter_cons]
      · have : ¬ (area x == n) = true := by simpa using hx
        by_cases hcn : area c = n <;>
          simp [this, ih, hcn, List.filter_cons, hx]
    · simp only [insertByArea, if_neg hca]
      by_cases hcn : area c = n <;> simp [List.filter_cons, hcn]

theorem sortByArea_filter (n : Nat) (l : List ImageCandidate) :
    (sortByArea l).filter (fun x => area x == n) =
      l.filter (fun x => area x == n) := by
  induction l with
  | nil => rfl
  | cons x xs ih =>
    simp only [sortByArea, insertByArea_filter, List.filter_cons]
    by_cases hx : area x = n <;> simp [hx, ih]

/-- C2: deduplication collapses the raw candidate sequence by resolved URL
with the first occurrence winning (for every URL the survivors are exactly the
first discovered candidate with that URL, and survivors keep discovery order
and metadata, being a sublist of the input); the survivors are sorted
descending by `width * height` by a stable sort (a permutation whose
equal-area fibres keep discovery order); the output is the 100-element prefix
of that ranking; and `totalImagesFound` reports the pre-cap count. -/
theorem rankImages_spec (l : List ImageCandidate) :
    (∀ u : String,
      (dedupImages l).filter (fun c => c.src == u) =
        (l.filter (fun c => c.src == u)).take 1) ∧
    dedupImages l <+ l ∧
    (sortByArea (dedupImages l)).Pairwise (fun a b => area b ≤ area a) ∧
    sortByArea (dedupImages l) ~ dedupImages l ∧
    (∀ n : Nat,
      (sortByArea (dedupImages l)).filter (fun x => area x == n) =
        (dedupImages l).filter (fun x => area x == n)) ∧
    (rankImages l).1 <+: sortByArea (dedupImages l) ∧
    (rankImages l).1.length ≤ 100 ∧
    (rankImages l).2 = (dedupImages l).length := by
  refine ⟨?_, ?_, ?_, ?_, ?_, ?_, ?_, ?_⟩
  · intro u
    simpa [dedupImages] using dedupAux_filter u l []
  · exact dedupAux_sublist [] l
  · exact sortByArea_pairwise _
  · exact sortByArea_perm _
  · intro n
    exact sortByArea_filter n _
  · exact List.take_prefix 100 _
  · exact List.length_take_le 100 (sortByArea (dedupImages l))
  · simpa [rankImages] using (sortByArea_perm (dedupImages l)).length_eq

/-- JS regex word character `\w`: `[A-Za-z0-9_]`. -/
def wordChar (c : Char) : Bool := c.isAlpha || c.isDigit || c = '_'

/-- Character class `[a-zA-Z0-9]` of the extension regex. -/
def alnumChar (c : Char) : Bool := c.isAlpha || c.isDigit

/-- The literal part of the data-URI regex `data:image\/(\w+)`. -/
def dataImageMarker : List Char := "data:image/".toList

/-- Embedding of `src.match(/data:image\/(\w+)/)`: scan left to right for the
first position where the marker is followed by at least one word character,
and capture the maximal word-character run there. -/
def findDataFormat : List Char → Option (List Char)
  | [] => none
  | c :: cs =>
      if dataImageMarker.isPrefixOf (c :: cs) then
        let run := ((c :: cs).drop dataImageMarker.length).takeWhile wordChar
        if run.isEmpty then findDataFormat cs else some run
      else findDataFormat cs

/-- Embedding of `src.match(/\.([a-zA-Z0-9]+)(?:\?|$)/)`: scan left to right
for the first dot whose maximal alphanumeric run is non-empty and followed by
`?` or the end of the string; a shorter capture can never match because the
next character of a shortened run is alphanumeric, hence neither `?` nor the
end. -/
def findExtension : List Char → Option (List Char)
  | [] => none
  | c :: cs =>
      if c = '.' then
        let run := cs.takeWhile alnumChar
        if run.isEmpty then findExtension cs
        else
          match cs.drop run.length with
          | [] => some run
          | q :: _ => if q = '?' then some run else findExtension cs
      else findExtension cs

/-- JS helper `getImageFormat` from the in-page extraction script of
`scrape_with_super_playwright` (`backend/main.py`). -/
def getImageFormat (src : String) : String :=
  if strStartsWith src "data:" then
    match findDataFormat src.toList with
    | some run => String.mk run
    | none => "unknown"
  else
    match findExtension src.toList with
    | some run => String.mk (run.map Char.toLower)
    | none => "unknown"

/-- Suffix after the last dot of a character list, `none` when no dot. -/
def lastDotSuffix : List Char → Option (List Char)
  | [] => none
  | c :: cs =>
      match lastDotSuffix cs with
      | some r => some r
      | none => if c = '.' then some cs else none

/-- The format-inference rule exactly as the specification words it (reading
the extension clause the way the spec's own `pic.JPG?v=2` example forces: the
query string is stripped first, and the after-the-last-dot substring counts
only when it is a well-formed alphanumeric extension): for a data URI, the
full MIME subtype after `image/` up to the `;` or `,` delimiter of the
data-URL header; otherwise the substring after the last `.`, lower-cased;
`"unknown"` when neither pattern matches.  Stated from the spec's words for
comparison with the source-derived `getImageFormat`. -/
def formatSpecClaim (src : String) : String :=
  if strStartsWith src "data:" then
    if strStartsWith src "data:image/" then
      let sub := (src.toList.drop 11).takeWhile (fun c => !(c = ';' || c = ','))
      if sub.isEmpty then "unknown" else String.mk sub
    else "unknown"
  else
    let base := src.toList.takeWhile (fun c => c ≠ '?')
    match lastDotSuffix base with
    | some extn =>
        if !extn.isEmpty && extn.all alnumChar then
          String.mk (extn.map Char.toLower)
        else "unknown"
    | none => "unknown"

/-- One-position matcher of the data-URI pattern: the maximal word run after
`data:image/` at this position, when non-empty. -/
def dataMatchAt (l : List Char) : Option (List Char) :=
  if dataImageMarker.isPrefixOf l then
    let run := (l.drop dataImageMarker.length).takeWhile wordChar
    if run.isEmpty then none else some run
  else none

/-- One-position matcher of the extension pattern: a dot followed by a
non-empty alphanumeric run terminated by `?` or the end of the string. -/
def extMatchAt : List Char → Option (List Char)
  | [] => none
  | c :: cs =>
      if c = '.' then
        let run := cs.takeWhile alnumChar
        if run.isEmpty then none
        else
          match cs.drop run.length with
          | [] => some run
          | q :: _ => if q = '?' then some run else none
      else none

/-- The amended format-inference rule, stated as the amended claim words it:
for a source starting with `data:`, the maximal word-character run after the
first occurrence of `data:image/`; for every other source, the first
substring of the form dot-plus-alphanumeric-run terminated by `?` or end of
string, lower-cased; `"unknown"` when no pattern matches.  Phrased as the
first successful match over all positions of the string. -/
def formatSpecAmended (src : String) : String :=
  if strStartsWith src "data:" then
    match (src.toList.tails.filterMap dataMatchAt).head? with
    | some run => String.mk run
    | none => "unknown"
  else
    match (src.toList.tails.filterMap extMatchAt).head? with
    | some run => String.mk (run.map Char.toLower)
    | none => "unknown"

theorem findDataFormat_eq_tails (l : List Char) :
    findDataFormat l = (l.tails.filterMap dataMatchAt).head? := by
  induction l with
  | nil => rfl
  | cons c cs ih =>
    by_cases hp : dataImageMarker.isPrefixOf (c :: cs) = true
    · by_cases hr :
        (((c :: cs).drop dataImageMarker.length).takeWhile wordChar).isEmpty = true
      · simp [findDataFormat, dataMatchAt, hp, hr, List.tails_cons,
          List.filterMap_cons, ih]
      · simp [findDataFormat, dataMatchAt, hp, hr, List.tails_cons,
          List.filterMap_cons]
    · simp [findDataFormat, dataMatchAt, hp, List.tails_cons,
        List.filterMap_cons, ih]

theorem findExtension_eq_tails (l : List Char) :
    findExtension l = (l.tails.filterMap extMatchAt).head? := by
  induction l with
  | nil => rfl
  | cons c cs ih =>
    rw [List.tails_cons, List.filterMap_cons]
    by_cases hc : c = '.'
    · subst hc
      by_cases hr : (cs.takeWhile alnumChar).isEmpty = true
      · simp [findExtension, extMatchAt, hr, ih]
      · cases hd : cs.drop (cs.takeWhile alnumChar).length with
        | nil => simp [findExtension, extMatchAt, hr, hd]
        | cons q rest =>
          by_cases hq : q = '?'
          · subst hq
            simp [findExtension, extMatchAt, hr, hd]
          · simp [findExtension, extMatchAt, hr, hd, hq, ih]
    · simp [findExtension, extMatchAt, hc, ih]

/-- C3 counterexample: on the data URI `data:image/svg+xml;base64,AAAA` — a
shape the extraction script itself produces when serializing inline SVG — the
code infers `"svg"` (the regex `\w+` stops at `+`), while the claim's rule
(the MIME subtype after `image/`) gives `"svg+xml"`. -/
theorem getImageFormat_counterexample :
    getImageFormat "data:image/svg+xml;base64,AAAA" = "svg" ∧
    formatSpecClaim "data:image/svg+xml;base64,AAAA" = "svg+xml" ∧
    getImageFormat "data:image/svg+xml;base64,AAAA" ≠
      formatSpecClaim "data:image/svg+xml;base64,AAAA" := by
  refine ⟨by decide, by decide, by decide⟩

/-- C3 (amended): for every source string the inferred format is: for a
source starting with `data:`, the maximal word-character run immediately
after the first occurrence of `data:image/` (`"unknown"` when there is
none); for every other source, the first substring of the form `.` followed
by a non-empty alphanumeric run terminated by `?` or the end of the string,
lower-cased (`"unknown"` when there is none).  The spec's three examples
hold under this rule. -/
theorem getImageFormat_amended (src : String) :
    getImageFormat src = formatSpecAmended src ∧
    getImageFormat "data:image/webp;base64,AAAA" = "webp" ∧
    getImageFormat "https://x.com/pic.JPG?v=2" = "jpg" ∧
    getImageFormat "https://x.com/noext" = "unknown" := by
  refine ⟨?_, by decide, by decide, by decide⟩
  simp only [getImageFormat, formatSpecAmended, findDataFormat_eq_tails,
    findExtension_eq_tails]

/-- Per-candidate test of the `/extract-images` filter loop
(`backend/main.py`, `extract_images`): the outer `if` requires
`width >= min_width and height >= min_height`, the nested `if` additionally
requires `include_small or (width >= 100 and height >= 100)`. -/
def keepCandidate (minW minH : Nat) (includeSmall : Bool)
    (img : ImageCandidate) : Bool :=
  if decide (minW ≤ img.width) && decide (minH ≤ img.height) then
    if includeSmall || (decide (100 ≤ img.width) && decide (100 ≤ img.height))
    then true
    else false
  else false

/-- The `/extract-images` filter: keep the passing candidates in order, then
truncate to the first `image_limit` entries (`filtered_images[:request.image_limit]`). -/
def filterImages (minW minH : Nat) (includeSmall : Bool) (limit : Nat)
    (l : List ImageCandidate) : List ImageCandidate :=
  (l.filter (keepCandidate minW minH includeSmall)).take limit

/-- An 80x80 candidate, the spec's test vector for the filter. -/
def img80 : ImageCandidate :=
  { src := "https://x.com/a.png", alt := "", width := 80, height := 80,
    format := "png", context := "img-element", is_base64 := false }

/-- C4: the `/extract-images` filter keeps exactly the candidates with
`width >= minWidth` and `height >= minHeight`, additionally requires
`width >= 100` and `height >= 100` when `includeSmall` is false, and then
truncates to the first `imageLimit` entries; an 80x80 candidate is excluded
when `minWidth = 100` even with `includeSmall = true`, included when
`minWidth = minHeight = 10` with `includeSmall = true`, and excluded for
every `minWidth`/`minHeight` when `includeSmall = false`. -/
theorem filterImages_spec (minW minH : Nat) (includeSmall : Bool)
    (limit : Nat) (l : List ImageCandidate) :
    filterImages minW minH includeSmall limit l =
      (l.filter (fun i =>
        decide (minW ≤ i.width ∧ minH ≤ i.height ∧
          (includeSmall = true ∨ (100 ≤ i.width ∧ 100 ≤ i.height))))).take
        limit ∧
    keepCandidate 100 10 true img80 = false ∧
    keepCandidate 10 10 true img80 = true ∧
    (∀ mW mH : Nat, keepCandidate mW mH false img80 = false) := by
  refine ⟨?_, by decide, by decide, ?_⟩
  · unfold filterImages
    congr 1
    apply List.filter_congr
    intro i _
    unfold keepCandidate
    by_cases h1 : minW ≤ i.width <;> by_cases h2 : minH ≤ i.height <;>
      cases includeSmall <;>
        by_cases h3 : 100 ≤ i.width <;> by_cases h4 : 100 ≤ i.height <;>
          simp [h1, h2, h3, h4]
  · intro mW mH
    unfold keepCandidate
    have h3 : ¬ (100 ≤ img80.width) := by decide
    by_cases h1 : mW ≤ img80.width <;> by_cases h2 : mH ≤ img80.height <;>
      simp [h1, h2, h3]

/-- One navigation strategy of `WebsiteScraper._smart_navigation`
(`backend/app/scraper.py`): a `wait_until` mode and a hard timeout in
milliseconds. -/
structure NavStrategy where
  wait_until : String
  timeout : Nat
deriving DecidableEq, Repr

/-- The fixed, ordered strategy list of `_smart_navigation`. -/
def navStrategies : List NavStrategy :=
  [⟨"networkidle", 30000⟩, ⟨"domcontentloaded", 20000⟩, ⟨"load", 15000⟩]

/-- The `for`/`try` loop of `_smart_navigation`, over an arbitrary outcome
`att` of each `page.goto` attempt: `break` on the first success; on failure
re-raise when the strategy is the last one, otherwise continue.  Returns the
list of strategies actually attempted together with the outcome.  (As in
Python, an empty strategy list would fall through and return normally.) -/
def navLoop {E : Type} (att : NavStrategy → Except E Unit) :
    List NavStrategy → List NavStrategy × Except E Unit
  | [] => ([], Except.ok ())
  | s :: rest =>
      match att s with
      | Except.ok _ => ([s], Except.ok ())
      | Except.error e =>
          match rest with
          | [] => ([s], Except.error e)
          | r :: rs =>
              let k := navLoop att (r :: rs)
              (s :: k.1, k.2)

/-- `_smart_navigation` over its fixed strategy list. -/
def smartNavigation {E : Type} (att : NavStrategy → Except E Unit) :
    List NavStrategy × Except E Unit :=
  navLoop att navStrategies

/-- C8: navigation tries exactly three fixed strategies with strictly
descending hard timeouts, in order and at most once each (the attempted list
is always a prefix of the strategy list); it stops at the first success, and
it raises the failure of the last strategy exactly when all three fail. -/
theorem smartNavigation_spec {E : Type} (att : NavStrategy → Except E Unit) :
    navStrategies.length = 3 ∧
    navStrategies.Pairwise (fun a b => b.timeout < a.timeout) ∧
    (smartNavigation att).1 <+: navStrategies ∧
    (att ⟨"networkidle", 30000⟩ = Except.ok () →
      smartNavigation att = ([⟨"networkidle", 30000⟩], Except.ok ())) ∧
    (∀ e1, att ⟨"networkidle", 30000⟩ = Except.error e1 →
      att ⟨"domcontentloaded", 20000⟩ = Except.ok () →
      smartNavigation att =
        ([⟨"networkidle", 30000⟩, ⟨"domcontentloaded", 20000⟩],
          Except.ok ())) ∧
    (∀ e1 e2, att ⟨"networkidle", 30000⟩ = Except.error e1 →
      att ⟨"domcontentloaded", 20000⟩ = Except.error e2 →
      att ⟨"load", 15000⟩ = Except.ok () →
      smartNavigation att = (navStrategies, Except.ok ())) ∧
    (∀ e1 e2 e3, att ⟨"networkidle", 30000⟩ = Except.error e1 →
      att ⟨"domcontentloaded", 20000⟩ = Except.error e2 →
      att ⟨"load", 15000⟩ = Except.error e3 →
      smartNavigation att = (navStrategies, Except.error e3)) := by
  refine ⟨by decide, by decide, ?_, ?_, ?_, ?_, ?_⟩
  · cases h1 : att ⟨"networkidle", 30000⟩ with
    | ok v =>
      simp [smartNavigation, navStrategies, navLoop, h1]
    | error e1 =>
      cases h2 : att ⟨"domcontentloaded", 20000⟩ with
      | ok v =>
        simp [smartNavigation, navStrategies, navLoop, h1, h2]
      | error e2 =>
        cases h3 : att ⟨"load", 15000⟩ with
        | ok v =>
          simp [smartNavigation, navStrategies, navLoop, h1, h2, h3]
        | error e3 =>
          simp [smartNavigation, navStrategies, navLoop, h1, h2, h3]
  · intro h1
    simp [smartNavigation, navStrategies, navLoop, h1]
  · intro e1 h1 h2
    simp [smartNavigation, navStrategies, navLoop, h1, h2]
  · intro e1 e2 h1 h2 h3
    simp [smartNavigation, navStrategies, navLoop, h1, h2, h3]
  · intro e1 e2 e3 h1 h2 h3
    simp [smartNavigation, navStrategies, navLoop, h1, h2, h3]

/-- Witness for C8: with every attempt succeeding, navigation attempts only
the first strategy and succeeds. -/
theorem smartNavigation_spec_witness :
    smartNavigation (fun _ => Except.ok (ε := String) ()) =
      ([⟨"networkidle", 30000⟩], Except.ok ()) :=
  (smartNavigation_spec (fun _ => Except.ok ())).2.2.2.1 rfl

/-- Events on the externally owned browser resource during one scrape. -/
inductive BrowserEv where
  | launch
  | newContext
  | newPage
  | navigate
  | evaluate
  | screenshot
  | closeBrowser
  | stopPlaywright
deriving DecidableEq, Repr

/-- The ordered fallible steps inside the `async with async_playwright()`
block of `scrape_with_super_playwright` (`backend/main.py`): launch, context,
page, `goto`, the scroll/evaluate cycle, the screenshot, the big extraction
`evaluate`, and the explicit `browser.close()` of the happy path. -/
def superScrapeSteps : List BrowserEv :=
  [BrowserEv.launch, BrowserEv.newContext, BrowserEv.newPage,
   BrowserEv.navigate, BrowserEv.evaluate, BrowserEv.screenshot,
   BrowserEv.evaluate, BrowserEv.closeBrowser]

/-- Trace of `scrape_with_super_playwright` when step `failAt` (if any, and
in range) is the first to raise: the preceding events are emitted, exiting
the `async with` emits `stopPlaywright` on every path (Playwright `stop`
closes every browser it launched), and the surrounding `try`/`except`
converts the exception into an error-dict return, so the function always
returns.  The boolean records whether the scrape produced data. -/
def scrapeSuperTrace (failAt : Option Nat) : List BrowserEv × Bool :=
  match failAt with
  | none => (superScrapeSteps ++ [BrowserEv.stopPlaywright], true)
  | some i =>
      if i < superScrapeSteps.length then
        (superScrapeSteps.take i ++ [BrowserEv.stopPlaywright], false)
      else (superScrapeSteps ++ [BrowserEv.stopPlaywright], true)

/-- Setup steps of `WebsiteScraper.scrape_website` that run before its
`try`/`finally`. -/
def scraperSetupSteps : List BrowserEv :=
  [BrowserEv.launch, BrowserEv.newContext, BrowserEv.newPage]

/-- Body steps of `WebsiteScraper.scrape_website` that run inside
`try ... finally: await browser.close()`. -/
def scraperBodySteps : List BrowserEv :=
  [BrowserEv.navigate, BrowserEv.evaluate, BrowserEv.screenshot,
   BrowserEv.evaluate]

/-- Trace of `WebsiteScraper.scrape_website` (`backend/app/scraper.py`): a
failure in a setup step skips the `finally` (the `try` was not yet entered)
but still exits the `async with`, which emits `stopPlaywright`; a failure in
a body step runs the `finally` `browser.close()` and then the `async with`
exit; the failure then propagates to the caller (boolean `false`). -/
def scrapeWebsiteTrace (failAt : Option Nat) : List BrowserEv × Bool :=
  match failAt with
  | none =>
      (scraperSetupSteps ++ scraperBodySteps ++
        [BrowserEv.closeBrowser, BrowserEv.stopPlaywright], true)
  | some i =>
      if i < scraperSetupSteps.length then
        (scraperSetupSteps.take i ++ [BrowserEv.stopPlaywright], false)
      else if i - scraperSetupSteps.length < scraperBodySteps.length then
        (scraperSetupSteps ++
          scraperBodySteps.take (i - scraperSetupSteps.length) ++
          [BrowserEv.closeBrowser, BrowserEv.stopPlaywright], false)
      else
        (scraperSetupSteps ++ scraperBodySteps ++
          [BrowserEv.closeBrowser, BrowserEv.stopPlaywright], true)

/-- Checks that every `launch` event in a trace is followed by a release of
the browser: an explicit `browser.close()` or the Playwright `stop` emitted
when the `async with` exits. -/
def releasedAfterLaunch : List BrowserEv → Bool
  | [] => true
  | BrowserEv.launch :: rest =>
      (rest.contains BrowserEv.closeBrowser ||
        rest.contains BrowserEv.stopPlaywright) && releasedAfterLaunch rest
  | _ :: rest => releasedAfterLaunch rest

theorem releasedAfterLaunch_super (failAt : Option Nat) :
    releasedAfterLaunch (scrapeSuperTrace failAt).1 = true := by
  rcases failAt with _ | i
  · decide
  · rcases i with _ | _ | _ | _ | _ | _ | _ | _ | i
    · decide
    · decide
    · decide
    · decide
    · decide
    · decide
    · decide
    · decide
    · have h : ¬ (i + 8 < superScrapeSteps.length) := by
        simp [superScrapeSteps]
      simp only [scrapeSuperTrace, if_neg h]
      decide

theorem releasedAfterLaunch_scraper (failAt : Option Nat) :
    releasedAfterLaunch (scrapeWebsiteTrace failAt).1 = true := by
  rcases failAt with _ | i
  · decide
  · rcases i with _ | _ | _ | _ | _ | _ | _ | i
    · decide
    · decide
    · decide
    · decide
    · decide
    · decide
    · decide
    · have h1 : ¬ (i + 7 < scraperSetupSteps.length) := by
        simp [scraperSetupSteps]
      have h2 : ¬ (i + 7 - scraperSetupSteps.length <
          scraperBodySteps.length) := by
        simp [scraperSetupSteps, scraperBodySteps]
      simp only [scrapeWebsiteTrace, if_neg h1, if_neg h2]
      decide

/-- C9: on every execution path of either scrape function — every possible
position of the first failing step, and the failure-free path — the browser
acquired at the start is released (an explicit close or the Playwright stop
of the `async with` exit) before the function returns or propagates its
failure. -/
theorem scrape_releases_browser (failAt : Option Nat) :
    releasedAfterLaunch (scrapeSuperTrace failAt).1 = true ∧
    releasedAfterLaunch (scrapeWebsiteTrace failAt).1 = true :=
  ⟨releasedAfterLaunch_super failAt, releasedAfterLaunch_scraper failAt⟩

/-- Response schema of the `/extract-images` endpoint. -/
structure ImageExtractResponse where
  success : Bool
  url : String
  total_images : Nat
  images : List ImageCandidate
  screenshot_base64 : Option String
  error_message : Option String
deriving Repr

/-- Success-path response construction of the `/extract-images` handler
(`backend/main.py`, `extract_images`): filter the scraped candidates,
truncate to the request limit, and report `total_images =
len(filtered_images)`. -/
def extractImagesResponse (minW minH : Nat) (includeSmall : Bool)
    (limit : Nat) (url : String) (allImages : List ImageCandidate)
    (shot : Option String) : ImageExtractResponse :=
  let filtered := filterImages minW minH includeSmall limit allImages
  { success := true, url := url, total_images := filtered.length,
    images := filtered, screenshot_base64 := shot, error_message := none }

/-- C10: in every successful `/extract-images` response, `total_images`
equals the length of the returned image list — the post-filter, post-limit
count, hence at most `image_limit` — and it is not the pre-filter count of
discovered images: an 80x80 candidate discovered (pre-filter count 1) under
`minWidth = 100` yields `total_images = 0`. -/
theorem extractImages_total_spec (minW minH : Nat) (includeSmall : Bool)
    (limit : Nat) (url : String) (allImages : List ImageCandidate)
    (shot : Option String) :
    (extractImagesResponse minW minH includeSmall limit url allImages
        shot).total_images =
      (extractImagesResponse minW minH includeSmall limit url allImages
        shot).images.length ∧
    (extractImagesResponse minW minH includeSmall limit url allImages
        shot).total_images ≤ limit ∧
    (extractImagesResponse 100 10 true 100 "https://x.test" [img80]
        none).total_images = 0 ∧
    [img80].length = 1 := by
  refine ⟨rfl, ?_, by decide, by decide⟩
  exact List.length_take_le limit
    (allImages.filter (keepCandidate minW minH includeSmall))

mutual
/-- A Python value as manipulated by `safe_data_cleanup`: scalars, lists and
string-keyed dicts. -/
inductive PyVal where
  | none
  | bool (b : Bool)
  | int (n : Int)
  | str (s : String)
  | list (l : PyList)
  | dict (d : PyDict)
deriving Repr
/-- A Python list of `PyVal`. -/
inductive PyList where
  | nil
  | cons (hd : PyVal) (tl : PyList)
deriving Repr
/-- A Python dict with string keys (the only keys the program uses). -/
inductive PyDict where
  | nil
  | cons (key : String) (val : PyVal) (tl : PyDict)
deriving Repr
end

mutual
/-- Python `repr()` on the modelled values (string quoting without escape
sequences, which none of the modelled data needs). -/
def pyRepr : PyVal → String
  | PyVal.none => "None"
  | PyVal.bool b => if b then "True" else "False"
  | PyVal.int n => toString n
  | PyVal.str s => "\x27" ++ s ++ "\x27"
  | PyVal.list l => "[" ++ pyReprList l ++ "]"
  | PyVal.dict d => "\x7b" ++ pyReprDict d ++ "\x7d"
/-- Comma-separated reprs of list elements. -/
def pyReprList : PyList → String
  | PyList.nil => ""
  | PyList.cons v PyList.nil => pyRepr v
  | PyList.cons v tl => pyRepr v ++ ", " ++ pyReprList tl
/-- Comma-separated reprs of dict entries. -/
def pyReprDict : PyDict → String
  | PyDict.nil => ""
  | PyDict.cons k v PyDict.nil => "\x27" ++ k ++ "\x27: " ++ pyRepr v
  | PyDict.cons k v tl =>
      "\x27" ++ k ++ "\x27: " ++ pyRepr v ++ ", " ++ pyReprDict tl
end

/-- Python `str()` coercion: a string is returned as is, every other value is
rendered as its repr-style text (`None`, `True`, `-7`, `[...]`, ...). -/
def pyStr : PyVal → String
  | PyVal.str s => s
  | v => pyRepr v

/-- Python truthiness, as used by `bool(v)` and `if v:`. -/
def pyTruthy : PyVal → Bool
  | PyVal.none => false
  | PyVal.bool b => b
  | PyVal.int n => decide (n ≠ 0)
  | PyVal.str s => decide (s ≠ "")
  | PyVal.list PyList.nil => false
  | PyVal.list (PyList.cons _ _) => true
  | PyVal.dict PyDict.nil => false
  | PyVal.dict (PyDict.cons _ _ _) => true

/-- Python `d.get(key, default)`. -/
def pyGet : PyDict → String → PyVal → PyVal
  | PyDict.nil, _, dflt => dflt
  | PyDict.cons k v tl, key, dflt => if k = key then v else pyGet tl key dflt

/-- Key lookup without a default, to state key absence. -/
def pyLookup : PyDict → String → Option PyVal
  | PyDict.nil, _ => Option.none
  | PyDict.cons k v tl, key => if k = key then some v else pyLookup tl key

/-- The elements of a modelled Python list. -/
def pyListToList : PyList → List PyVal
  | PyList.nil => []
  | PyList.cons v tl => v :: pyListToList tl

/-- The keys of a modelled Python dict. -/
def pyDictKeys : PyDict → List String
  | PyDict.nil => []
  | PyDict.cons k _ tl => k :: pyDictKeys tl

/-- Python iteration `for x in v`: a list yields its elements, a string its
one-character strings, a dict its keys; every other value raises
`TypeError`, modelled as `none`. -/
def pyIter : PyVal → Option (List PyVal)
  | PyVal.list l => some (pyListToList l)
  | PyVal.str s => some (s.toList.map (fun c => PyVal.str (String.mk [c])))
  | PyVal.dict d => some ((pyDictKeys d).map PyVal.str)
  | _ => Option.none

/-- One cleaned navigation entry of `safe_data_cleanup`; `href` keeps the raw
value of `nav.get('href', '#')`. -/
structure NavItem where
  text : String
  href : PyVal
deriving Repr

/-- One cleaned heading entry; `level` keeps the raw `h.get('level', 'h1')`. -/
structure HeadingItem where
  text : String
  level : PyVal
deriving Repr

/-- The cleaned logo of `safe_data_cleanup`. -/
inductive SafeLogo where
  | text (t : String)
  | image (src alt : String)
deriving Repr

/-- The well-typed structure produced by `safe_data_cleanup`. -/
structure SafeData where
  url : String
  siteType : String
  backgroundColor : String
  textColor : String
  fontFamily : String
  title : String
  isDark : Bool
  hasSearch : Bool
  hasVideo : Bool
  screenshot : String
  allImages : PyVal
  totalImagesFound : PyVal
  navigation : List NavItem
  headings : List HeadingItem
  logo : SafeLogo
deriving Repr

/-- Per-item navigation processing of `safe_data_cleanup`: a dict
contributes when its `text` value is a non-empty string (the `href` is taken
raw, defaulting to `'#'`); a string contributes itself — even when empty —
with href `'#'`; every other item is skipped. -/
def processNavItem : PyVal → Option NavItem
  | PyVal.dict d =>
      match pyGet d "text" (PyVal.str "") with
      | PyVal.str s =>
          if s = "" then Option.none
          else some ⟨s, pyGet d "href" (PyVal.str "#")⟩
      | _ => Option.none
  | PyVal.str s => some ⟨s, PyVal.str "#"⟩
  | _ => Option.none

/-- Per-item heading processing, analogous to `processNavItem` with the
`level` key defaulting to `'h1'`. -/
def processHeadingItem : PyVal → Option HeadingItem
  | PyVal.dict d =>
      match pyGet d "text" (PyVal.str "") with
      | PyVal.str s =>
          if s = "" then Option.none
          else some ⟨s, pyGet d "level" (PyVal.str "h1")⟩
      | _ => Option.none
  | PyVal.str s => some ⟨s, PyVal.str "h1"⟩
  | _ => Option.none

/-- The `if navigation: for nav in navigation: ...` loop: skipped entirely
when the value is falsy; iterating a truthy non-iterable raises. -/
def collectNav (v : PyVal) : Except String (List NavItem) :=
  if pyTruthy v then
    match pyIter v with
    | some items => Except.ok (items.filterMap processNavItem)
    | Option.none => Except.error "TypeError: object is not iterable"
  else Except.ok []

/-- The headings loop, analogous to `collectNav`. -/
def collectHeadings (v : PyVal) : Except String (List HeadingItem) :=
  if pyTruthy v then
    match pyIter v with
    | some items => Except.ok (items.filterMap processHeadingItem)
    | Option.none => Except.error "TypeError: object is not iterable"
  else Except.ok []

/-- Python `==` against a string literal: only an equal `str` compares
equal. -/
def pyEqStr : PyVal → String → Bool
  | PyVal.str s, t => s == t
  | _, _ => false

/-- Logo processing of `safe_data_cleanup`: a truthy dict with
`type == 'text'` and truthy `text` gives a text logo, one with
`type == 'image'` and truthy `src` gives an image logo; everything else
falls back to a text logo bearing the cleaned page title. -/
def processLogo (v : PyVal) (title : String) : SafeLogo :=
  match v with
  | PyVal.dict d =>
      if pyTruthy (PyVal.dict d) then
        if pyEqStr (pyGet d "type" PyVal.none) "text" &&
            pyTruthy (pyGet d "text" PyVal.none) then
          SafeLogo.text (pyStr (pyGet d "text" (PyVal.str "")))
        else if pyEqStr (pyGet d "type" PyVal.none) "image" &&
            pyTruthy (pyGet d "src" PyVal.none) then
          SafeLogo.image (pyStr (pyGet d "src" (PyVal.str "")))
            (pyStr (pyGet d "alt" (PyVal.str "")))
        else SafeLogo.text title
      else SafeLogo.text title
  | _ => SafeLogo.text title

/-- `safe_data_cleanup` (`backend/main.py`): coerce every scalar field with
`str()` / `bool()` — the documented default applies only when the key is
absent —, rebuild navigation and headings with their placeholders when the
processed list ends up empty, and fall back to a text logo bearing the
cleaned title.  A truthy non-iterable `navigation`/`headings` value makes
the Python `for` raise `TypeError`, surfacing here as `Except.error`. -/
def safe_data_cleanup (data : PyDict) : Except String SafeData :=
  let title := pyStr (pyGet data "title" (PyVal.str "Website"))
  match collectNav (pyGet data "navigation" (PyVal.list PyList.nil)),
      collectHeadings (pyGet data "headings" (PyVal.list PyList.nil)) with
  | Except.error e, _ => Except.error e
  | Except.ok _, Except.error e => Except.error e
  | Except.ok nav0, Except.ok heads0 =>
      Except.ok
        { url := pyStr (pyGet data "url" (PyVal.str ""))
          siteType := pyStr (pyGet data "siteType" (PyVal.str "standard"))
          backgroundColor :=
            pyStr (pyGet data "backgroundColor" (PyVal.str "#ffffff"))
          textColor := pyStr (pyGet data "textColor" (PyVal.str "#333333"))
          fontFamily :=
            pyStr (pyGet data "fontFamily" (PyVal.str "system-ui, sans-serif"))
          title := title
          isDark := pyTruthy (pyGet data "isDark" (PyVal.bool false))
          hasSearch := pyTruthy (pyGet data "hasSearch" (PyVal.bool false))
          hasVideo := pyTruthy (pyGet data "hasVideo" (PyVal.bool false))
          screenshot := pyStr (pyGet data "screenshot" (PyVal.str ""))
          allImages := pyGet data "allImages" (PyVal.list PyList.nil)
          totalImagesFound := pyGet data "totalImagesFound" (PyVal.int 0)
          navigation :=
            if nav0.isEmpty then
              [⟨"Home", PyVal.str "#"⟩, ⟨"About", PyVal.str "#"⟩]
            else nav0
          headings :=
            if heads0.isEmpty then [⟨"Welcome", PyVal.str "h1"⟩] else heads0
          logo := processLogo (pyGet data "logo" PyVal.none) title }

theorem pyGet_of_lookup_none : ∀ {d : PyDict} {k : String} {dflt : PyVal},
    pyLookup d k = Option.none → pyGet d k dflt = dflt
  | PyDict.nil, _, _, _ => rfl
  | PyDict.cons k0 v0 tl, k, dflt, h => by
    by_cases hk : k0 = k
    · simp [pyLookup, hk] at h
    · simp only [pyLookup, if_neg hk] at h
      simp only [pyGet, if_neg hk]
      exact pyGet_of_lookup_none h

theorem pyGet_of_lookup_some : ∀ {d : PyDict} {k : String} {v dflt : PyVal},
    pyLookup d k = some v → pyGet d k dflt = v
  | PyDict.nil, _, _, _, h => by simp [pyLookup] at h
  | PyDict.cons k0 v0 tl, k, v, dflt, h => by
    by_cases hk : k0 = k
    · simp only [pyLookup, if_pos hk] at h
      simp only [pyGet, if_pos hk]
      exact Option.some.inj h
    · simp only [pyLookup, if_neg hk] at h
      simp only [pyGet, if_neg hk]
      exact pyGet_of_lookup_some h

/-- C5 counterexample: a snapshot whose `backgroundColor` is present but
wrong-typed (the integer 7) is coerced by `str()` to `"7"` — the cleanup
does not substitute the documented default `"#ffffff"` for wrong-typed
fields, only for absent ones. -/
theorem safe_data_cleanup_counterexample :
    (safe_data_cleanup
        (PyDict.cons "backgroundColor" (PyVal.int 7) PyDict.nil)).map
      SafeData.backgroundColor = Except.ok "7" ∧
    ("7" : String) ≠ "#ffffff" :=
  ⟨rfl, by decide⟩

/-- C5 (amended): whenever the cleanup returns (Python raises `TypeError`
when a truthy non-iterable sits in `navigation`/`headings`), a missing or
empty navigation yields exactly the `[Home, About]` placeholder, missing or
empty headings yield exactly the `[Welcome]` placeholder, a missing or
non-dict logo yields a text logo bearing the cleaned page title, and every
scalar field receives its documented literal default exactly when its key is
absent — a present but wrong-typed value is coerced with `str()`/`bool()`,
not defaulted. -/
theorem safe_data_cleanup_amended (data : PyDict) (out : SafeData)
    (h : safe_data_cleanup data = Except.ok out) :
    (pyGet data "navigation" (PyVal.list PyList.nil) = PyVal.list PyList.nil →
      out.navigation = [⟨"Home", PyVal.str "#"⟩, ⟨"About", PyVal.str "#"⟩]) ∧
    (pyGet data "headings" (PyVal.list PyList.nil) = PyVal.list PyList.nil →
      out.headings = [⟨"Welcome", PyVal.str "h1"⟩]) ∧
    (∀ v, pyGet data "logo" PyVal.none = v → (∀ d0, v ≠ PyVal.dict d0) →
      out.logo = SafeLogo.text out.title) ∧
    (pyLookup data "backgroundColor" = Option.none →
      out.backgroundColor = "#ffffff") ∧
    (pyLookup data "textColor" = Option.none →
      out.textColor = "#333333") ∧
    (pyLookup data "fontFamily" = Option.none →
      out.fontFamily = "system-ui, sans-serif") ∧
    (pyLookup data "title" = Option.none → out.title = "Website") ∧
    (pyLookup data "siteType" = Option.none → out.siteType = "standard") ∧
    (pyLookup data "url" = Option.none → out.url = "") ∧
    (pyLookup data "screenshot" = Option.none → out.screenshot = "") ∧
    (pyLookup data "isDark" = Option.none → out.isDark = false) ∧
    (pyLookup data "hasSearch" = Option.none → out.hasSearch = false) ∧
    (pyLookup data "hasVideo" = Option.none → out.hasVideo = false) ∧
    (∀ v, pyLookup data "backgroundColor" = some v →
      out.backgroundColor = pyStr v) := by
  unfold safe_data_cleanup at h
  cases hn : collectNav (pyGet data "navigation" (PyVal.list PyList.nil)) with
  | error e => rw [hn] at h; exact absurd h (by simp)
  | ok nav0 =>
    cases hh :
        collectHeadings (pyGet data "headings" (PyVal.list PyList.nil)) with
    | error e => rw [hn, hh] at h; exact absurd h (by simp)
    | ok heads0 =>
      rw [hn, hh] at h
      have hout : out = _ := (Except.ok.inj h).symm
      subst hout
      refine ⟨?_, ?_, ?_, ?_, ?_, ?_, ?_, ?_, ?_, ?_, ?_, ?_, ?_, ?_⟩
      · intro hnav
        rw [hnav] at hn
        have hnil : nav0 = [] := by
          have hok : Except.ok (ε := String) [] = Except.ok nav0 := by
            simpa [collectNav, pyTruthy] using hn
          exact (Except.ok.inj hok).symm
        subst hnil
        simp
      · intro hhead
        rw [hhead] at hh
        have hnil : heads0 = [] := by
          have hok : Except.ok (ε := String) [] = Except.ok heads0 := by
            simpa [collectHeadings, pyTruthy] using hh
          exact (Except.ok.inj hok).symm
        subst hnil
        simp
      · intro v hv hnd
        simp only [hv]
        cases v with
        | dict d0 => exact absurd rfl (hnd d0)
        | none => simp [processLogo]
        | bool b => simp [processLogo]
        | int n => simp [processLogo]
        | str s => simp [processLogo]
        | list l => simp [processLogo]
      · intro hk
        simp [pyGet_of_lookup_none hk, pyStr, pyRepr]
      · intro hk
        simp [pyGet_of_lookup_none hk, pyStr, pyRepr]
      · intro hk
        simp [pyGet_of_lookup_none hk, pyStr, pyRepr]
      · intro hk
        simp [pyGet_of_lookup_none hk, pyStr, pyRepr]
      · intro hk
        simp [pyGet_of_lookup_none hk, pyStr, pyRepr]
      · intro hk
        simp [pyGet_of_lookup_none hk, pyStr, pyRepr]
      · intro hk
        simp [pyGet_of_lookup_none hk, pyStr, pyRepr]
      · intro hk
        simp [pyGet_of_lookup_none hk, pyTruthy]
      · intro hk
        simp [pyGet_of_lookup_none hk, pyTruthy]
      · intro hk
        simp [pyGet_of_lookup_none hk, pyTruthy]
      · intro v hk
        simp [pyGet_of_lookup_some hk]

/-- The structure `safe_data_cleanup` produces on the empty snapshot. -/
def defaultSafeData : SafeData :=
  { url := "", siteType := "standard", backgroundColor := "#ffffff",
    textColor := "#333333", fontFamily := "system-ui, sans-serif",
    title := "Website", isDark := false, hasSearch := false,
    hasVideo := false, screenshot := "",
    allImages := PyVal.list PyList.nil, totalImagesFound := PyVal.int 0,
    navigation := [⟨"Home", PyVal.str "#"⟩, ⟨"About", PyVal.str "#"⟩],
    headings := [⟨"Welcome", PyVal.str "h1"⟩],
    logo := SafeLogo.text "Website" }

/-- Witness for C5 (amended) on the empty snapshot: navigation gets exactly
the `[Home, About]` placeholder and `backgroundColor` its default. -/
theorem safe_data_cleanup_amended_witness :
    safe_data_cleanup PyDict.nil = Except.ok defaultSafeData ∧
    defaultSafeData.navigation =
      [⟨"Home", PyVal.str "#"⟩, ⟨"About", PyVal.str "#"⟩] ∧
    defaultSafeData.backgroundColor = "#ffffff" :=
  ⟨rfl,
    (safe_data_cleanup_amended PyDict.nil defaultSafeData rfl).1 rfl,
    (safe_data_cleanup_amended PyDict.nil defaultSafeData rfl).2.2.2.1 rfl⟩

/-- Embedding of the Python substring test `pat in hay` (and JS
`includes`). -/
def containsSub (pat : List Char) : List Char → Bool
  | [] => pat.isEmpty
  | c :: cs => pat.isPrefixOf (c :: cs) || containsSub pat cs

theorem containsSub_iff {pat hay : List Char} :
    containsSub pat hay = true ↔ pat <:+: hay := by
  induction hay with
  | nil =>
    simp only [containsSub, List.isEmpty_iff, List.infix_nil]
  | cons c cs ih =>
    simp [containsSub, ih, List.infix_cons_iff]

/-- Whitespace stripped by Python `str.strip()`. -/
def pyWs (c : Char) : Bool :=
  c = ' ' || c = '\t' || c = '\n' || c = '\r' || c = '\x0b' || c = '\x0c'

/-- Python `str.strip()`. -/
def pyStrip (l : List Char) : List Char :=
  ((l.dropWhile pyWs).reverse.dropWhile pyWs).reverse

/-- Scan for the first match position of `pat`, reporting positions offset by
`i`; `-1` when there is none. -/
def findFrom (pat : List Char) : List Char → Nat → Int
  | [], i => if pat.isEmpty then (i : Int) else -1
  | c :: cs, i =>
      if pat.isPrefixOf (c :: cs) then (i : Int)
      else findFrom pat cs (i + 1)

/-- Python `str.find(sub)`: index of the first occurrence, `-1` if absent. -/
def pyFind (hay pat : List Char) : Int := findFrom pat hay 0

/-- Python `str.find(sub, start)` for a non-negative in-range start. -/
def pyFindFrom (hay pat : List Char) (start : Nat) : Int :=
  let r := pyFind (hay.drop start) pat
  if r < 0 then -1 else r + (start : Int)

/-- Python `str.rfind(sub)`: index of the last occurrence, `-1` if absent; a
match in the tail is preferred over one at the head. -/
def pyRfind (hay pat : List Char) : Int :=
  match hay with
  | [] => if pat.isEmpty then 0 else -1
  | c :: cs =>
      let r := pyRfind cs pat
      if 0 ≤ r then r + 1
      else if pat.isPrefixOf (c :: cs) then 0 else -1

/-- Clamping of one Python slice index against the length. -/
def pySliceIdx (len : Nat) (i : Int) : Nat :=
  if i < 0 then ((len : Int) + i).toNat else min i.toNat len

/-- Python slice `l[a:b]` (negative indices count from the end, out-of-range
indices clamp). -/
def pySlice (l : List Char) (a b : Int) : List Char :=
  (l.take (pySliceIdx l.length b)).drop (pySliceIdx l.length a)

/-- Fuel-driven body of `replaceList`; any fuel at least the list length
gives the untruncated result, since every step consumes one fuel and at
least one character. -/
def replaceFuel (pat repl : List Char) : Nat → List Char → List Char
  | 0, l => l
  | _ + 1, [] => []
  | fuel + 1, c :: cs =>
      if pat ≠ [] ∧ pat.isPrefixOf (c :: cs) then
        repl ++ replaceFuel pat repl fuel ((c :: cs).drop pat.length)
      else c :: replaceFuel pat repl fuel cs

/-- Python `str.replace(pat, repl)` for a non-empty `pat` (the only patterns
the program replaces): all non-overlapping occurrences, left to right. -/
def replaceList (pat repl l : List Char) : List Char :=
  replaceFuel pat repl l.length l

/-- The fence marker `_extract_html_from_response` searches first. -/
def fenceTag : List Char := "```html".toList

/-- A bare fence, sought as terminator after the opening fence. -/
def backtickFence : List Char := "```".toList

/-- The literal DOCTYPE marker used by both boundary functions. -/
def doctypeMarker : List Char := "<!DOCTYPE html".toList

/-- The closing tag after which trailing prose is discarded. -/
def closeHtmlTag : List Char := "</html>".toList

/-- The substring whose presence `_post_process_html` checks before
wrapping. -/
def openHtmlTag : List Char := "<html".toList

/-- Selection step of `LLMWebsiteCloner._extract_html_from_response`
(`backend/app/llm_cloner.py`): the content of a ```` ```html ```` fence when
present (up to the next bare fence, or — as in Python slicing with `end =
-1` — up to the last character when the fence is unterminated), else from a
literal `<!DOCTYPE html` marker on, else the whole response; each branch
strips surrounding whitespace. -/
def extractSelect (response : List Char) : List Char :=
  if containsSub fenceTag response then
    let start := pyFind response fenceTag + 7
    let e := pyFindFrom response backtickFence start.toNat
    pyStrip (pySlice response start e)
  else if containsSub doctypeMarker response then
    pyStrip (pySlice response (pyFind response doctypeMarker)
      (response.length : Int))
  else pyStrip response

/-- Trailing-prose truncation of `_extract_html_from_response`: cut right
after the last `</html>` when one is present. -/
def truncateAfterClose (html : List Char) : List Char :=
  if containsSub closeHtmlTag html then
    pySlice html 0 (pyRfind html closeHtmlTag + 7)
  else html

/-- `_extract_html_from_response`. -/
def extractHtmlFromResponse (response : List Char) : List Char :=
  truncateAfterClose (extractSelect response)

/-- The wrapper document `_post_process_html` builds when the extracted body
contains no `<html` at all. -/
def wrapFull (html : List Char) : List Char :=
  ("<!DOCTYPE html>\n<html>\n<head>\n<title>Cloned Website</title>" ++
    "\n</head>\n<body>\n").toList ++ html ++ "\n</body>\n</html>".toList

/-- Replacement of `<html>` used when head and body tags are missing. -/
def headReplacement : List Char :=
  "<html>\n<head>\n<title>Cloned Website</title>\n</head>\n<body>".toList

/-- Replacement of `</html>` used when head and body tags are missing. -/
def bodyReplacement : List Char := "</body>\n</html>".toList

/-- `LLMWebsiteCloner._post_process_html`: force a DOCTYPE prefix, then wrap
fully when `<html` is absent, or patch in head/body when `<head>` and
`<body>` are both absent. -/
def postProcessHtml (html0 : List Char) : List Char :=
  let html :=
    if doctypeMarker.isPrefixOf html0 then html0
    else "<!DOCTYPE html>\n".toList ++ html0
  if !(containsSub openHtmlTag html) then wrapFull html
  else if !(containsSub "<head>".toList html) &&
      !(containsSub "<body>".toList html) then
    replaceList closeHtmlTag bodyReplacement
      (replaceList "<html>".toList headReplacement html)
  else html

/-- The complete LLM boundary applied to a model response. -/
def processResponse (response : List Char) : List Char :=
  postProcessHtml (extractHtmlFromResponse response)

theorem mem_of_head?_some {α : Type} {a : α} {l : List α}
    (h : l.head? = some a) : a ∈ l := by
  cases l with
  | nil => simp at h
  | cons b t =>
    have hb : b = a := by simpa using h
    subst hb
    exact List.mem_cons_self b t

theorem prefix_head?_eq {α : Type} {x y : List α} (h : x <+: y)
    (hx : x ≠ []) : y.head? = x.head? := by
  cases x with
  | nil => exact absurd rfl hx
  | cons a t =>
    cases y with
    | nil => simp [List.prefix_nil] at h
    | cons b u =>
      rcases List.cons_prefix_cons.mp h with ⟨rfl, _⟩
      rfl

theorem infix_append_left {α : Type} (a : List α) {sub b : List α}
    (h : sub <:+: b) : sub <:+: a ++ b := by
  rcases h with ⟨s, t, rfl⟩
  exact ⟨a ++ s, t, by simp⟩

theorem infix_append_right {α : Type} {sub a : List α} (b : List α)
    (h : sub <:+: a) : sub <:+: a ++ b := by
  rcases h with ⟨s, t, rfl⟩
  exact ⟨s, t ++ b, by simp⟩

theorem infix_iff_exists_drop {α : Type} {sub l : List α} :
    sub <:+: l ↔ ∃ n, sub <+: l.drop n := by
  constructor
  · rintro ⟨s, t, rfl⟩
    refine ⟨s.length, ?_⟩
    rw [List.append_assoc, List.drop_left]
    exact List.prefix_append sub t
  · rintro ⟨n, hp⟩
    exact hp.isInfix.trans (List.drop_suffix n l).isInfix

theorem replaceFuel_no_match {pat repl : List Char} :
    ∀ (fuel : Nat) (l : List Char), ¬ pat <:+: l →
      replaceFuel pat repl fuel l = l
  | 0, l, _ => rfl
  | _ + 1, [], _ => rfl
  | fuel + 1, c :: cs, h => by
    have hpre : ¬ (pat ≠ [] ∧ pat.isPrefixOf (c :: cs) = true) := by
      rintro ⟨-, hpre⟩
      exact h (List.isPrefixOf_iff_prefix.mp hpre).isInfix
    have hcs : ¬ pat <:+: cs := fun hh => h (List.infix_cons hh)
    simp only [replaceFuel, if_neg hpre]
    rw [replaceFuel_no_match fuel cs hcs]

theorem replaceFuel_match_repl {pat repl : List Char} (hp : pat ≠ []) :
    ∀ (fuel : Nat) (l : List Char), l.length ≤ fuel → pat <:+: l →
      repl <:+: replaceFuel pat repl fuel l
  | 0, l, hlen, hinf => by
    have : l = [] := List.length_eq_zero.mp (Nat.le_zero.mp hlen)
    subst this
    exact absurd (List.infix_nil.mp hinf) hp
  | _ + 1, [], _, hinf => absurd (List.infix_nil.mp hinf) hp
  | fuel + 1, c :: cs, hlen, hinf => by
    by_cases hpre : pat ≠ [] ∧ pat.isPrefixOf (c :: cs) = true
    · simp only [replaceFuel, if_pos hpre]
      exact (List.prefix_append repl _).isInfix
    · simp only [replaceFuel, if_neg hpre]
      have hnotp : ¬ pat <+: c :: cs := by
        intro hh
        exact hpre ⟨hp, List.isPrefixOf_iff_prefix.mpr hh⟩
      have hcs : pat <:+: cs := by
        rcases List.infix_cons_iff.mp hinf with h1 | h1
        · exact absurd h1 hnotp
        · exact h1
      have hlen2 : cs.length ≤ fuel := by
        simp only [List.length_cons] at hlen
        omega
      exact List.infix_cons
        (replaceFuel_match_repl hp fuel cs hlen2 hcs)

theorem replaceFuel_keeps_prefix_head_notin {p : Char} {pat repl : List Char}
    (hpat : pat.head? = some p) :
    ∀ (fuel : Nat) (x m : List Char), x <+: m → p ∉ x →
      x <+: replaceFuel pat repl fuel m
  | 0, x, m, hxm, _ => hxm
  | _ + 1, x, [], hxm, _ => hxm
  | fuel + 1, x, c :: cs, hxm, hpx => by
    cases x with
    | nil => exact List.nil_prefix
    | cons a x' =>
      rcases List.cons_prefix_cons.mp hxm with ⟨rfl, hx'⟩
      have hcond : ¬ (pat ≠ [] ∧ pat.isPrefixOf (a :: cs) = true) := by
        rintro ⟨hne, hpre⟩
        cases pat with
        | nil => exact hne rfl
        | cons q pt =>
          have hq : q = p := by simpa using hpat
          have hqa : q = a :=
            (List.cons_prefix_cons.mp
              (List.isPrefixOf_iff_prefix.mp hpre)).1
          apply hpx
          rw [← hq, hqa]
          exact List.mem_cons_self a x'
      simp only [replaceFuel, if_neg hcond]
      refine List.cons_prefix_cons.mpr ⟨rfl, ?_⟩
      exact replaceFuel_keeps_prefix_head_notin hpat fuel x' cs hx'
        (fun hm => hpx (List.mem_cons_of_mem _ hm))

theorem replaceFuel_keeps_prefix_marker {p : Char} {pat repl x : List Char}
    (hpat : pat.head? = some p) (hx : x.head? = some p) (hxt : p ∉ x.tail)
    (hnp : ¬ pat <+: x) (hlen : pat.length ≤ x.length) :
    ∀ (fuel : Nat) (m : List Char), x <+: m →
      x <+: replaceFuel pat repl fuel m
  | 0, m, hxm => hxm
  | _ + 1, [], hxm => hxm
  | fuel + 1, c :: cs, hxm => by
    cases x with
    | nil => exact List.nil_prefix
    | cons a x' =>
      have ha : a = p := by simpa using hx
      rcases List.cons_prefix_cons.mp hxm with ⟨rfl, hx'⟩
      have hcond : ¬ (pat ≠ [] ∧ pat.isPrefixOf (a :: cs) = true) := by
        rintro ⟨hne, hpre⟩
        exact hnp (List.prefix_of_prefix_length_le
          (List.isPrefixOf_iff_prefix.mp hpre) hxm hlen)
      simp only [replaceFuel, if_neg hcond]
      refine List.cons_prefix_cons.mpr ⟨rfl, ?_⟩
      have hx'notin : p ∉ x' := by simpa using hxt
      exact replaceFuel_keeps_prefix_head_notin hpat fuel x' cs hx' hx'notin

theorem replaceFuel_keeps_sub {p : Char} {pat repl sub : List Char}
    (hpat : pat.head? = some p) (hsub : sub.head? = some p)
    (hpt : p ∉ pat.tail) (hst : p ∉ sub.tail)
    (hns : ¬ sub <+: pat) (hlen : sub.length ≤ pat.length) :
    ∀ (fuel : Nat) (m : List Char), m.length ≤ fuel → sub <:+: m →
      sub <:+: replaceFuel pat repl fuel m
  | 0, m, _, hinf => hinf
  | _ + 1, [], _, hinf => hinf
  | fuel + 1, c :: cs, hflen, hinf => by
    have hsubne : sub ≠ [] := by
      intro hh
      rw [hh] at hsub
      simp at hsub
    have hpatne : pat ≠ [] := by
      intro hh
      rw [hh] at hpat
      simp at hpat
    by_cases hcond : pat ≠ [] ∧ pat.isPrefixOf (c :: cs) = true
    · simp only [replaceFuel, if_pos hcond]
      have hpm : pat <+: c :: cs := List.isPrefixOf_iff_prefix.mp hcond.2
      rcases infix_iff_exists_drop.mp hinf with ⟨n, hd⟩
      have hnge : pat.length ≤ n := by
        by_contra hlt
        push_neg at hlt
        rcases Nat.eq_zero_or_pos n with rfl | hpos
        · rw [List.drop_zero] at hd
          exact hns (List.prefix_of_prefix_length_le hd hpm hlen)
        · rcases hpm with ⟨t, ht⟩
          have hdrop : (c :: cs).drop n = pat.drop n ++ t := by
            rw [← ht]
            exact List.drop_append_of_le_length (Nat.le_of_lt hlt)
          have hpd : (pat.drop n).head? = some p := by
            have h1 : ((c :: cs).drop n).head? = some p := by
              rw [prefix_head?_eq hd hsubne]
              exact hsub
            rw [hdrop, List.head?_append] at h1
            have hne : pat.drop n ≠ [] := by
              intro hh
              have := List.length_drop n pat
              rw [hh] at this
              simp at this
              omega
            cases hh : (pat.drop n).head? with
            | none => exact absurd (List.head?_eq_none_iff.mp hh) hne
            | some q =>
              rw [hh] at h1
              have hqp : q = p := by simpa [Option.or] using h1
              rw [hqp]
          have hmem : p ∈ pat.drop n := mem_of_head?_some hpd
          cases pat with
          | nil => exact hpatne rfl
          | cons q pt =>
            apply hpt
            have hdn : (q :: pt).drop n = pt.drop (n - 1) := by
              cases n with
              | zero => omega
              | succ k => simp
            rw [hdn] at hmem
            exact List.drop_subset _ _ hmem
      have hd2 : sub <:+: (c :: cs).drop pat.length := by
        apply infix_iff_exists_drop.mpr
        refine ⟨n - pat.length, ?_⟩
        rw [List.drop_drop]
        have : pat.length + (n - pat.length) = n := by omega
        rw [this]
        exact hd
      have hlen2 : ((c :: cs).drop pat.length).length ≤ fuel := by
        rw [List.length_drop]
        have hp1 : 1 ≤ pat.length := by
          cases pat with
          | nil => exact absurd rfl hpatne
          | cons _ _ => simp
        simp only [List.length_cons] at hflen ⊢
        omega
      exact infix_append_left repl
        (replaceFuel_keeps_sub hpat hsub hpt hst hns hlen fuel _ hlen2 hd2)
    · simp only [replaceFuel, if_neg hcond]
      rcases List.infix_cons_iff.mp hinf with hpre | htail
      · cases sub with
        | nil => exact absurd rfl hsubne
        | cons a sub' =>
          have ha : a = p := by simpa using hsub
          rcases List.cons_prefix_cons.mp hpre with ⟨rfl, hsub'⟩
          have hst' : p ∉ sub' := by simpa using hst
          have : sub' <+: replaceFuel pat repl fuel cs :=
            replaceFuel_keeps_prefix_head_notin hpat fuel sub' cs hsub' hst'
          exact (List.cons_prefix_cons.mpr ⟨rfl, this⟩).isInfix
      · have hlen2 : cs.length ≤ fuel := by
          simp only [List.length_cons] at hflen
          omega
        exact List.infix_cons
          (replaceFuel_keeps_sub hpat hsub hpt hst hns hlen fuel cs hlen2
            htail)
theorem pyRfind_eq_neg {pat : List Char} (hp : pat ≠ []) :
    ∀ {hay : List Char}, ¬ pat <:+: hay → pyRfind hay pat = -1
  | [], _ => by
    have : ¬ pat.isEmpty = true := by
      simpa [List.isEmpty_iff] using hp
    simp [pyRfind, this]
  | c :: cs, h => by
    have hcs : ¬ pat <:+: cs := fun hh => h (List.infix_cons hh)
    have hpre : ¬ pat.isPrefixOf (c :: cs) = true := by
      intro hpre
      exact h (List.isPrefixOf_iff_prefix.mp hpre).isInfix
    have hr : pyRfind cs pat = -1 := pyRfind_eq_neg hp hcs
    simp [pyRfind, hr, hpre]

theorem pyRfind_spec {pat : List Char} (hp : pat ≠ []) :
    ∀ {hay : List Char}, pat <:+: hay →
      ∃ n : Nat, pyRfind hay pat = (n : Int) ∧ pat <+: hay.drop n
  | [], h => absurd (List.infix_nil.mp h) hp
  | c :: cs, h => by
    by_cases hcs : pat <:+: cs
    · rcases pyRfind_spec hp hcs with ⟨n, hr, hd⟩
      refine ⟨n + 1, ?_, by simpa using hd⟩
      have hge : (0 : Int) ≤ (n : Int) := Int.natCast_nonneg n
      simp only [pyRfind, hr, if_pos hge]
      push_cast
      ring
    · have hr : pyRfind cs pat = -1 := pyRfind_eq_neg hp hcs
      have hpre : pat <+: c :: cs := by
        rcases List.infix_cons_iff.mp h with h1 | h1
        · exact h1
        · exact absurd h1 hcs
      refine ⟨0, ?_, by simpa using hpre⟩
      have hneg : ¬ (0 : Int) ≤ -1 := by decide
      simp [pyRfind, hr, hneg, List.isPrefixOf_iff_prefix.mpr hpre]

theorem truncateAfterClose_suffix {html : List Char}
    (h : closeHtmlTag <:+: html) :
    closeHtmlTag <:+ truncateAfterClose html := by
  have hc : containsSub closeHtmlTag html = true := containsSub_iff.mpr h
  rcases pyRfind_spec (by decide) h with ⟨n, hr, hd⟩
  have hlen7 : n + 7 ≤ html.length := by
    have h1 := hd.length_le
    rw [List.length_drop] at h1
    have h2 : closeHtmlTag.length = 7 := by decide
    rw [h2] at h1
    have h3 : n ≤ html.length := by
      by_contra hgt
      push_neg at hgt
      omega
    omega
  have hidx : pySliceIdx html.length ((n : Int) + 7) = n + 7 := by
    unfold pySliceIdx
    rw [if_neg (by omega)]
    have : ((n : Int) + 7).toNat = n + 7 := by omega
    rw [this]
    omega
  have hidx0 : pySliceIdx html.length 0 = 0 := by
    unfold pySliceIdx
    rw [if_neg (by omega)]
    simp
  have htake : html.take (n + 7) = html.take n ++ closeHtmlTag := by
    rw [List.take_add]
    congr 1
    rcases hd with ⟨t, ht⟩
    rw [← ht]
    exact List.take_left' (by decide)
  unfold truncateAfterClose
  rw [hc]
  simp only [if_pos rfl, pySlice, hr, hidx, hidx0, List.drop_zero, htake]
  exact List.suffix_append _ _

theorem extractSelect_whole {r : List Char} (h1 : ¬ fenceTag <:+: r)
    (h2 : ¬ doctypeMarker <:+: r) : extractSelect r = pyStrip r := by
  have hc1 : ¬ containsSub fenceTag r = true :=
    fun hh => h1 (containsSub_iff.mp hh)
  have hc2 : ¬ containsSub doctypeMarker r = true :=
    fun hh => h2 (containsSub_iff.mp hh)
  simp [extractSelect, hc1, hc2]

theorem postProcessHtml_spec (h0 : List Char) :
    doctypeMarker <+: postProcessHtml h0 ∧
    openHtmlTag <:+: postProcessHtml h0 := by
  unfold postProcessHtml
  set html := if doctypeMarker.isPrefixOf h0 then h0
    else "<!DOCTYPE html>\n".toList ++ h0 with hhtml
  have hdoc : doctypeMarker <+: html := by
    rw [hhtml]
    by_cases hp : doctypeMarker.isPrefixOf h0 = true
    · rw [if_pos hp]
      exact List.isPrefixOf_iff_prefix.mp hp
    · rw [if_neg hp]
      exact (show doctypeMarker <+: "<!DOCTYPE html>\n".toList from
        by decide).trans (List.prefix_append _ _)
  by_cases hopen : containsSub openHtmlTag html = true
  · rw [if_neg (by simp [hopen])]
    by_cases hhb : (!containsSub "<head>".toList html &&
        !containsSub "<body>".toList html) = true
    · rw [if_pos hhb]
      have hinner_pre :
          doctypeMarker <+:
            replaceList "<html>".toList headReplacement html := by
        unfold replaceList
        exact replaceFuel_keeps_prefix_marker (p := '<') (by decide)
          (by decide) (by decide) (by decide) (by decide) html.length html
          hdoc
      have houter_pre :
          doctypeMarker <+:
            replaceList closeHtmlTag bodyReplacement
              (replaceList "<html>".toList headReplacement html) := by
        unfold replaceList
        exact replaceFuel_keeps_prefix_marker (p := '<') (by decide)
          (by decide) (by decide) (by decide) (by decide) _ _ hinner_pre
      refine ⟨houter_pre, ?_⟩
      have hinner_inf :
          openHtmlTag <:+:
            replaceList "<html>".toList headReplacement html := by
        by_cases hocc : "<html>".toList <:+: html
        · have hrepl :=
            @replaceFuel_match_repl "<html>".toList headReplacement
              (by decide) html.length html (Nat.le_refl _) hocc
          exact ((show openHtmlTag <+: headReplacement from
            by decide).isInfix).trans hrepl
        · unfold replaceList
          rw [replaceFuel_no_match _ _ hocc]
          exact containsSub_iff.mp hopen
      unfold replaceList
      exact replaceFuel_keeps_sub (p := '<') (by decide) (by decide)
        (by decide) (by decide) (by decide) (by decide) _ _
        (Nat.le_refl _) hinner_inf
    · rw [if_neg hhb]
      exact ⟨hdoc, containsSub_iff.mp hopen⟩
  · rw [if_pos (by simp [hopen])]
    constructor
    · exact (show doctypeMarker <+:
          ("<!DOCTYPE html>\n<html>\n<head>\n<title>Cloned Website</title>" ++
            "\n</head>\n<body>\n").toList from by decide).trans
        ((List.prefix_append _ _).trans (List.prefix_append _ _))
    · exact infix_append_right _ (infix_append_right _
        (show openHtmlTag <:+:
          ("<!DOCTYPE html>\n<html>\n<head>\n<title>Cloned Website</title>" ++
            "\n</head>\n<body>\n").toList from by decide))

set_option maxRecDepth 200000 in
/-- C6 counterexample: on the model response
`<!DOCTYPE html>\n<html lang=q></html>` the returned document does not
contain the literal substring `<html>` — the html tag carries an attribute —
so the claim that the boundary's output always contains `<html>` is false
(the output does contain `<html`). -/
theorem processResponse_counterexample :
    ¬ ("<html>".toList <:+:
      processResponse "<!DOCTYPE html>\n<html lang=q></html>".toList) := by
  decide

set_option maxRecDepth 200000 in
/-- C6 (amended): for every model response, the boundary output starts with
the DOCTYPE declaration and contains the substring `<html` (with `<html>`
itself guaranteed only when the wrapper has to synthesize the tag); the
extraction step locates a fenced block or a literal DOCTYPE marker and falls
back to the whole (stripped) response when neither is present; whenever the
selected document contains `</html>`, the extracted text ends at the last
`</html>`, discarding any trailing prose; and the spec's fenced example with
leading and trailing prose yields exactly the fenced content. -/
theorem processResponse_spec (r : List Char) :
    doctypeMarker <+: processResponse r ∧
    openHtmlTag <:+: processResponse r ∧
    (closeHtmlTag <:+: extractSelect r →
      closeHtmlTag <:+ extractHtmlFromResponse r) ∧
    (¬ fenceTag <:+: r → ¬ doctypeMarker <:+: r →
      extractSelect r = pyStrip r) ∧
    extractHtmlFromResponse
        "Sure!\n```html\n<p>hi</p>\n```\nDone.".toList =
      "<p>hi</p>".toList := by
  refine ⟨(postProcessHtml_spec _).1, (postProcessHtml_spec _).2,
    truncateAfterClose_suffix, extractSelect_whole, by decide⟩

set_option maxRecDepth 200000 in
/-- Witness for C6 (amended): a response containing a closing `</html>`
followed by trailing prose yields an extraction ending in `</html>`. -/
theorem processResponse_spec_witness :
    closeHtmlTag <:+
      extractHtmlFromResponse
        "<!DOCTYPE html><html></html> trailing prose".toList :=
  (processResponse_spec
      "<!DOCTYPE html><html></html> trailing prose".toList).2.2.1
    (by decide)

/-- Response schema of the `/clone` endpoint. -/
structure CloneResponse where
  success : Bool
  generated_html : String
  original_url : String
  error_message : Option String
deriving Repr

/-- The exceptions that can reach the outer `except` of `clone_website` on a
total pipeline failure (`backend/main.py`): `HTMLGenerator.__init__` raising
for a missing API key, and the two raise sites of
`HTMLGenerator.create_html`. -/
inductive CloneFailure where
  | apiKeyMissing
  | noVisualData (detail : String)
  | generationFailed (detail : String)

/-- The `str(e)` text of each total failure. -/
def failureMessage : CloneFailure → String
  | CloneFailure.apiKeyMissing => "ANTHROPIC_API_KEY required"
  | CloneFailure.noVisualData d => "No visual data available: " ++ d
  | CloneFailure.generationFailed d => "HTML generation failed: " ++ d

/-- Head of the literal error page of the `/clone` handler, up to the style
block. -/
def errorHtmlHead : String :=
  "<!DOCTYPE html>\n<html>\n<head>\n    <title>Super Clone Failed</title>" ++
  "\n    <style>\n"

/-- Style block and opening of the error card, up to the interpolated error
message. -/
def errorHtmlCss : String :=
  "        body \x7b \n            font-family: -apple-system, " ++
  "BlinkMacSystemFont, \x27Segoe UI\x27, Roboto, sans-serif;\n" ++
  "            padding: 40px; background: #f8f9fa; color: #333; margin: 0;\n" ++
  "        \x7d\n        .error \x7b \n            background: white; " ++
  "padding: 30px; border-radius: 8px; \n            box-shadow: 0 2px 10px " ++
  "rgba(0,0,0,0.1); max-width: 600px; margin: 0 auto;\n        \x7d\n" ++
  "        .url \x7b background: #f8f9fa; padding: 10px; border-radius: " ++
  "4px; margin: 10px 0; word-break: break-all; \x7d\n        h1 \x7b " ++
  "color: #dc3545; margin-top: 0; \x7d\n        .status \x7b margin: " ++
  "20px 0; \x7d\n        .status span \x7b display: inline-block; " ++
  "margin-right: 15px; \x7d\n    </style>\n</head>\n<body>\n" ++
  "    <div class=\"error\">\n        <h1>🚫 Super Clone Failed</h1>\n" ++
  "        <p><strong>Error:</strong> "

/-- Between the error message and the interpolated request URL. -/
def errorHtmlAfterMsg : String :=
  "</p>\n        <div class=\"url\"><strong>URL:</strong> "

/-- Between the URL and the interpolated Playwright status flag. -/
def errorHtmlAfterUrl : String :=
  "</div>\n        \n        <div class=\"status\">\n" ++
  "            <h3>System Status:</h3>\n" ++
  "            <span><strong>Playwright:</strong> "

/-- Between the Playwright flag and the interpolated MCP status flag. -/
def errorHtmlAfterPw : String :=
  "</span>\n            <span><strong>MCP:</strong> "

/-- Feature and suggestion lists after the status flags. -/
def errorHtmlTail : String :=
  "</span>\n        </div>\n        \n        " ++
  "<h3>💡 Super Image Cloner Features:</h3>\n        <ul>\n" ++
  "            <li>🎯 60+ CSS selectors for comprehensive image " ++
  "detection</li>\n            <li>📸 Full page screenshot capture</li>\n" ++
  "            <li>🔍 Background image extraction from CSS</li>\n" ++
  "            <li>⚡ Lazy loading trigger via aggressive scrolling</li>\n" ++
  "            <li>🎨 SVG and Canvas element capture</li>\n" ++
  "            <li>🔄 Smart duplicate removal</li>\n" ++
  "            <li>📊 Size and format detection</li>\n        </ul>\n" ++
  "        \n        <p><strong>Try these URLs:</strong></p>\n" ++
  "        <ul>\n            <li>https://nike.com</li>\n" ++
  "            <li>https://apple.com</li>\n" ++
  "            <li>https://github.com</li>\n" ++
  "            <li>https://unsplash.com</li>\n        </ul>\n        \n" ++
  "        <p><small>If this persists, the website might have strong bot " ++
  "protection.</small></p>"

/-- Closing markup of the error page. -/
def errorHtmlClose : String := "\n    </div>\n</body>\n</html>"

/-- The deterministic error page of the `/clone` handler, with the error
message, request URL and the two system-status flags interpolated. -/
def errorHtml (msg url : String) (pw mcp : Bool) : String :=
  errorHtmlHead ++ errorHtmlCss ++ msg ++ errorHtmlAfterMsg ++ url ++
    errorHtmlAfterUrl ++
    (if pw then "✅ Available" else "❌ Not Available") ++
    errorHtmlAfterPw ++
    (if mcp then "✅ Ready" else "❌ Not Ready") ++
    errorHtmlTail ++ errorHtmlClose

/-- The `except` branch of `clone_website`: a failing pipeline is converted
into a normal response rather than propagating. -/
def cloneFailureResponse (f : CloneFailure) (url : String) (pw mcp : Bool) :
    CloneResponse :=
  { success := false
    generated_html := errorHtml (failureMessage f) url pw mcp
    original_url := url
    error_message := some (failureMessage f) }

theorem strToList_append (s t : String) :
    (s ++ t).toList = s.toList ++ t.toList := rfl

theorem append_ne_empty_left {a b : String} (h : a ≠ "") : a ++ b ≠ "" := by
  intro hh
  apply h
  apply String.ext
  have : (a ++ b).data = [] := by rw [hh]
  rw [String.data_append] at this
  exact List.append_eq_nil.mp this |>.1

/-- C7: when the `/clone` pipeline fails totally, the handler returns — it
never propagates the exception — with `success = false`, a non-empty
`errorMessage` equal to the failure's message, the original URL echoed, and
a deterministic (non-LLM) error page that embeds the error message and both
system-status flags and contains `<html` and `</html>`. -/
theorem clone_failure_spec (f : CloneFailure) (url : String) (pw mcp : Bool) :
    (cloneFailureResponse f url pw mcp).success = false ∧
    (cloneFailureResponse f url pw mcp).error_message =
      some (failureMessage f) ∧
    failureMessage f ≠ "" ∧
    (cloneFailureResponse f url pw mcp).original_url = url ∧
    "<html".toList <:+:
      (cloneFailureResponse f url pw mcp).generated_html.toList ∧
    "</html>".toList <:+:
      (cloneFailureResponse f url pw mcp).generated_html.toList ∧
    (failureMessage f).toList <:+:
      (cloneFailureResponse f url pw mcp).generated_html.toList ∧
    (if pw then "✅ Available" else "❌ Not Available").toList <:+:
      (cloneFailureResponse f url pw mcp).generated_html.toList ∧
    (if mcp then "✅ Ready" else "❌ Not Ready").toList <:+:
      (cloneFailureResponse f url pw mcp).generated_html.toList := by
  have hdata : (cloneFailureResponse f url pw mcp).generated_html.toList =
      errorHtmlHead.toList ++ errorHtmlCss.toList ++
        (failureMessage f).toList ++ errorHtmlAfterMsg.toList ++
        url.toList ++ errorHtmlAfterUrl.toList ++
        (if pw then "✅ Available" else "❌ Not Available").toList ++
        errorHtmlAfterPw.toList ++
        (if mcp then "✅ Ready" else "❌ Not Ready").toList ++
        errorHtmlTail.toList ++ errorHtmlClose.toList := by
    show (errorHtml (failureMessage f) url pw mcp).toList = _
    unfold errorHtml
    simp only [strToList_append]
  refine ⟨rfl, rfl, ?_, rfl, ?_, ?_, ?_, ?_, ?_⟩
  · cases f with
    | apiKeyMissing => decide
    | noVisualData d => exact append_ne_empty_left (by decide)
    | generationFailed d => exact append_ne_empty_left (by decide)
  · rw [hdata]
    refine infix_append_right _ (infix_append_right _ (infix_append_right _
      (infix_append_right _ (infix_append_right _ (infix_append_right _
      (infix_append_right _ (infix_append_right _ (infix_append_right _
      (infix_append_right _ ?_)))))))))
    decide
  · rw [hdata]
    apply infix_append_left
    decide
  · rw [hdata]
    refine infix_append_right _ (infix_append_right _ (infix_append_right _
      (infix_append_right _ (infix_append_right _ (infix_append_right _
      (infix_append_right _ (infix_append_right _ ?_)))))))
    exact infix_append_left _ List.infix_rfl
  · rw [hdata]
    refine infix_append_right _ (infix_append_right _ (infix_append_right _
      (infix_append_right _ ?_)))
    exact infix_append_left _ List.infix_rfl
  · rw [hdata]
    refine infix_append_right _ (infix_append_right _ ?_)
    exact infix_append_left _ List.infix_rfl

end OrchidSpec
